import Mathlib

/-!
Verification of the derive-attribute decode/validate engine.

The definitions below are a shallow embedding of the Rust sources:
  * `derive-attribute-utils/src/shared.rs`   (error model, `ArgResult`,
    `Concat`, `TryFromMeta` implementations for primitives, `Vec`, `Option`,
    `required_validation`, `Attribute::from_attrs`),
  * `derive-attribute-utils/src/syn_2.rs` and `syn_1.rs` (the two metadata
    adapters), and
  * `derive-attribute-macros/src/lib.rs` (the code templates
    `generate_try_from_meta` / `generate_validate` that the derive macro
    emits for every record type; they are modelled as functions parametric
    in the per-field data the template splices in).

Source positions (`proc_macro2::Span`) are modelled as opaque numbers;
float literal payloads are modelled as rationals (no floating-point
arithmetic is performed by the engine, floats are only carried through).
A Rust panic (`.expect`) is modelled by an `Option`-valued function
returning `none`.
-/

set_option autoImplicit false

namespace DeriveAttribute

/-- Opaque source position (`proc_macro2::Span`). -/
abbrev Span := Nat

/-- `ErrorMsg` from `shared.rs` (constructor names as in the source). -/
inductive ErrorMsg where
  | FailedToParseAttr
  | InvalidItem
  | MissingAttribute (name : String)
  | MissingArg (name : String)
  | InvalidType (expected : String)
  | DuplicateArg
  | InvalidArg
deriving DecidableEq

/-- Positioned error: `Error { msg, location }` from `shared.rs`. -/
structure Error where
  msg : ErrorMsg
  location : Span
deriving DecidableEq

/-- `ArgResult<T>`: per-field accumulator from `shared.rs`. -/
structure ArgResult (α : Type) where
  value : Option α
  errors : List Error
  location : Span
deriving DecidableEq

/-- `ArgResult::new(location)`. -/
def ArgResult.new {α : Type} (location : Span) : ArgResult α :=
  { value := none, errors := [], location }

/-- `ArgResult::add_error`: appends an error at the stored location. -/
def ArgResult.add_error {α : Type} (r : ArgResult α) (msg : ErrorMsg) : ArgResult α :=
  { r with errors := r.errors ++ [⟨msg, r.location⟩] }

/-- `ArgResult::add_value`. -/
def ArgResult.add_value {α : Type} (r : ArgResult α) (v : α) : ArgResult α :=
  { r with value := some v }

/-- `ArgResult::is_found`. -/
def ArgResult.is_found {α : Type} (r : ArgResult α) : Bool :=
  r.errors.length > 0 || r.value.isSome

/-- `ArgResult::found_with_errors`. -/
def ArgResult.found_with_errors {α : Type} (r : ArgResult α) : Bool :=
  r.errors.length > 0

/-- `ArgResult::found_with_value`. -/
def ArgResult.found_with_value {α : Type} (r : ArgResult α) : Bool :=
  r.value.isSome

/-- The `Concat` trait from `shared.rs`: default `NO_DUPLICATES = true`,
default `concat` is overwrite (`*self = other`). -/
class Concat (α : Type) where
  no_duplicates : Bool := true
  concat : α → α → α := fun _ b => b

/-- `impl Concat for String {}` (all defaults). -/
instance : Concat String := {}

/-- `impl Concat for bool {}` (all defaults). -/
instance : Concat Bool := {}

/-- `impl_integer!` gives every integer type a default `Concat`. -/
instance : Concat Int := {}

/-- `impl_float!` gives every float type a default `Concat`;
float values are modelled as rationals. -/
instance : Concat ℚ := {}

/-- `impl<T> Concat for CustomArg<T> {}`: modelled at the payload type. -/
structure CustomArg (α : Type) where
  val : α
deriving DecidableEq

instance {α : Type} : Concat (CustomArg α) := {}

/-- `impl<T: Concat> Concat for Vec<T>`: `NO_DUPLICATES = false`,
`concat` appends. -/
instance {α : Type} [Concat α] : Concat (List α) where
  no_duplicates := false
  concat := fun a b => a ++ b

/-- `impl<T: Concat> Concat for ArgResult<T>`: the merge algorithm from
`shared.rs` lines 53-80, step by step in source order. -/
def ArgResult.concat {α : Type} [Concat α] (self other : ArgResult α) : ArgResult α :=
  let s₁ :=
    if other.is_found then
      let s := { self with location := other.location }
      if self.is_found && Concat.no_duplicates (α := α) then
        s.add_error .DuplicateArg
      else s
    else self
  let s₂ :=
    if other.found_with_errors then
      { s₁ with errors := s₁.errors ++ other.errors }
    else s₁
  if other.found_with_value then
    match s₂.value with
    | some v =>
      match other.value with
      | some ov => { s₂ with value := some (Concat.concat v ov) }
      | none => s₂
    | none => { s₂ with value := other.value }
  else s₂

/-- C1 counterexample: merging a second value-carrying occurrence of a
scalar (default-`Concat`, here `String`) into a first value-carrying
occurrence retains the SECOND value, not the first as the claim states. -/
theorem scalar_duplicate_merge_counterexample :
    (ArgResult.concat (⟨some "a", [], 1⟩ : ArgResult String) ⟨some "b", [], 2⟩).value = some "b"
    ∧ (ArgResult.concat (⟨some "a", [], 1⟩ : ArgResult String) ⟨some "b", [], 2⟩).value ≠ some "a" := by
  constructor
  · rfl
  · decide

/-- C1 (amended): for every scalar type with `NO_DUPLICATES = true` and the
default overwrite `concat`, merging a second found occurrence carrying a
value into a first found occurrence carrying a value yields exactly one
`DuplicateArg` error positioned at the second occurrence's location, and
the retained value is the SECOND occurrence's value (the default `Concat`
overwrites the earlier value). -/
theorem scalar_duplicate_merge {α : Type} [Concat α]
    (hnd : Concat.no_duplicates (α := α) = true)
    (hover : ∀ a b : α, Concat.concat a b = b)
    (v₁ v₂ : α) (l₁ l₂ : Span) :
    ArgResult.concat ⟨some v₁, [], l₁⟩ ⟨some v₂, [], l₂⟩ =
      ⟨some v₂, [⟨.DuplicateArg, l₂⟩], l₂⟩ := by
  simp [ArgResult.concat, ArgResult.is_found, ArgResult.found_with_errors,
    ArgResult.found_with_value, ArgResult.add_error, hnd, hover]

/-- C1 witness: the amended statement at the `String` instance. -/
theorem scalar_duplicate_merge_witness :
    ArgResult.concat (⟨some "a", [], 1⟩ : ArgResult String) ⟨some "b", [], 2⟩ =
      ⟨some "b", [⟨.DuplicateArg, 2⟩], 2⟩ :=
  scalar_duplicate_merge rfl (fun _ _ => rfl) "a" "b" 1 2

/-! ## Syn 2 metadata model (`syn_2.rs`)

`syn::Meta` is a path, a name/value pair, or a list; a name/value pair's
right-hand side is an expression that may be a literal, an array literal,
or something else.  `GetSpan for Meta` returns the span of the meta's
path, so each `Meta` constructor carries that span; each expression
carries its own span.  A list's argument tokens may fail to re-parse into
comma-separated metas, so the parsed children are an `Option`. -/

/-- Literal payloads (`syn::Lit` kinds the adapter inspects). -/
inductive Lit where
  | int (n : Int)
  | float (q : ℚ)
  | str (s : String)
  | bool (b : Bool)
deriving DecidableEq

/-- Expression on the right of `key = ...` (`syn::Expr` shapes the adapter
inspects). -/
inductive Expr where
  | lit (span : Span) (l : Lit)
  | array (span : Span) (elems : List Expr)
  | other (span : Span)

/-- `syn::Meta`; the `pspan` component is the span of the meta's path,
the `key` component is `path().get_ident()` rendered as a string. -/
inductive Meta where
  | path (pspan : Span) (key : Option String)
  | nameValue (pspan : Span) (key : Option String) (value : Expr)
  | list (pspan : Span) (key : Option String) (args : Option (List Meta))

/-- Span of an expression. -/
def Expr.span : Expr → Span
  | .lit s _ => s
  | .array s _ => s
  | .other s => s

/-- `impl GetSpan for Meta` (syn 2): `self.path().span()`. -/
def Meta.get_span : Meta → Span
  | .path s _ => s
  | .nameValue s _ _ => s
  | .list s _ _ => s

/-- `Syn2::deserialize_key`: `meta.path().get_ident()` as a string. -/
def Syn2.deserialize_key : Meta → Option String
  | .path _ k => k
  | .nameValue _ k _ => k
  | .list _ k _ => k

/-- `Syn2::deserialize_integer` at an integer target type: only an
integer literal on the right of a name/value pair extracts. -/
def Syn2.deserialize_integer : Meta → Option Int
  | .nameValue _ _ (.lit _ (.int n)) => some n
  | _ => none

/-- `Syn2::deserialize_integer` instantiated at a FLOAT target type (as the
float `TryFromMeta` impl does): it still matches only `Lit::Int`, and
`base10_parse::<f32/f64>` of the integer literal's digits succeeds with
that integer's numeric value. -/
def Syn2.deserialize_integer_as_float : Meta → Option ℚ
  | .nameValue _ _ (.lit _ (.int n)) => some (n : ℚ)
  | _ => none

/-- `Syn2::deserialize_float`: only a float literal extracts. -/
def Syn2.deserialize_float : Meta → Option ℚ
  | .nameValue _ _ (.lit _ (.float q)) => some q
  | _ => none

/-- `Syn2::deserialize_string`. -/
def Syn2.deserialize_string : Meta → Option String
  | .nameValue _ _ (.lit _ (.str s)) => some s
  | _ => none

/-- `Syn2::deserialize_bool`: a bare path is `true`; a boolean literal on
the right of a name/value pair extracts its value. -/
def Syn2.deserialize_bool : Meta → Option Bool
  | .path _ _ => some true
  | .nameValue _ _ (.lit _ (.bool b)) => some b
  | _ => none

/-- `Syn2::deserialize_list_args`: a `Meta::List` yields its re-parsed
children (or fails), anything else is `None`. -/
def Syn2.deserialize_list_args : Meta → Option (List Meta)
  | .list _ _ args => args
  | _ => none

/-- `Syn2::deserialize_array`: an array literal on the right of a
name/value pair expands into one synthetic name/value meta per element,
whose path is the placeholder ident `_` spanned at the element. -/
def Syn2.deserialize_array : Meta → Option (List Meta)
  | .nameValue _ _ (.array _ elems) =>
      some (elems.map fun e => .nameValue e.span (some "_") e)
  | _ => none

/-! ## Primitive decoders (`shared.rs`) -/

/-- `required_validation` from `shared.rs`: the reusable required-field
phase-b rule. -/
def required_validation {α : Type} (state : ArgResult α) (arg_name : String) :
    Except (List Error) α :=
  if state.found_with_errors then .error state.errors
  else
    match state.value with
    | none => .error ((state.add_error (.MissingArg arg_name)).errors)
    | some v => .ok v

/-- Phase a of the `impl_float!` macro expansion (`shared.rs` lines
449-460), for a float type whose name is `type_name` ("f32" or "f64"):
note that the source calls `V::deserialize_integer`, not
`V::deserialize_float`. -/
def float_try_from_meta (type_name : String) (meta : Meta) : ArgResult ℚ :=
  let result : ArgResult ℚ := ArgResult.new meta.get_span
  match Syn2.deserialize_integer_as_float meta with
  | some value => result.add_value value
  | none => result.add_error (.InvalidType type_name)

/-- Phase a of `impl TryFromMeta for bool` (`shared.rs` lines 232-243). -/
def bool_try_from_meta (meta : Meta) : ArgResult Bool :=
  let result : ArgResult Bool := ArgResult.new meta.get_span
  match Syn2.deserialize_bool meta with
  | some value => result.add_value value
  | none => result.add_error (.InvalidType "boolean")

/-- Phase b of `impl TryFromMeta for bool` (`shared.rs` lines 245-251):
absence (no value, no errors) is `false`, not an error. -/
def bool_validate (state : ArgResult Bool) (_arg_name : String) :
    Except (List Error) Bool :=
  if state.found_with_errors then .error state.errors
  else
    match state.value with
    | none => .ok false
    | some v => .ok v

/-- C2 (code bug): float phase a calls the INTEGER extraction.  At the
float leaf `x = 3/2` the adapter's float extraction succeeds, yet the
float decoder emits `InvalidType "f32"` and no value; at the integer
leaf `x = 5` the float decoder accepts the value.  This contradicts the
claim that phase a performs the float-kind-specific extraction. -/
theorem float_phase_a_uses_integer_extraction :
    Syn2.deserialize_float (Meta.nameValue 0 (some "x") (Expr.lit 1 (Lit.float (3 / 2)))) =
      some (3 / 2)
    ∧ float_try_from_meta "f32" (Meta.nameValue 0 (some "x") (Expr.lit 1 (Lit.float (3 / 2)))) =
        ⟨none, [⟨.InvalidType "f32", 0⟩], 0⟩
    ∧ float_try_from_meta "f32" (Meta.nameValue 0 (some "x") (Expr.lit 1 (Lit.int 5))) =
        ⟨some ((5 : Int) : ℚ), [], 0⟩ :=
  ⟨rfl, rfl, rfl⟩

/-- C9: a boolean field that is never supplied (no value, no errors)
validates to `false`; a bare flag (`Meta::Path`) decodes in phase a to
the value `true` with no errors; a state with non-empty errors fails
with exactly those errors. -/
theorem bool_absent_false_flag_true (loc pspan : Span) (key : Option String)
    (arg_name : String) (st : ArgResult Bool) (h : st.errors ≠ []) :
    bool_validate (ArgResult.new loc) arg_name = .ok false
    ∧ bool_try_from_meta (.path pspan key) = ⟨some true, [], pspan⟩
    ∧ bool_validate st arg_name = .error st.errors := by
  refine ⟨rfl, rfl, ?_⟩
  unfold bool_validate
  simp [ArgResult.found_with_errors, List.length_pos, h]

/-- C9 witness. -/
theorem bool_absent_false_flag_true_witness :
    bool_validate (ArgResult.new 0) "b" = .ok false
    ∧ bool_try_from_meta (.path 1 none) = ⟨some true, [], 1⟩
    ∧ bool_validate ⟨none, [⟨.DuplicateArg, 2⟩], 2⟩ "b" = .error [⟨.DuplicateArg, 2⟩] :=
  bool_absent_false_flag_true 0 1 none "b" ⟨none, [⟨.DuplicateArg, 2⟩], 2⟩ (by decide)

/-! ## List merge (claim C3) -/

theorem list_concat_eq_append {α : Type} [Concat α] (a b : List α) :
    Concat.concat a b = a ++ b := rfl

theorem list_no_duplicates {α : Type} [Concat α] :
    Concat.no_duplicates (α := List α) = false := rfl

/-- Merging a value-carrying, error-free occurrence into a value-carrying,
error-free list state appends the element lists (no duplicate error,
since `Vec`'s `NO_DUPLICATES` is false). -/
theorem concat_list_step {α : Type} [Concat α] (acc o : ArgResult (List α)) (L l : List α)
    (hv : acc.value = some L) (he : acc.errors = [])
    (hov : o.value = some l) (hoe : o.errors = []) :
    ArgResult.concat acc o = ⟨some (L ++ l), [], o.location⟩ := by
  simp [ArgResult.concat, ArgResult.is_found, ArgResult.found_with_errors,
    ArgResult.found_with_value, ArgResult.add_error, hv, he, hov, hoe,
    list_concat_eq_append, list_no_duplicates]

/-- Merging a value-carrying, error-free occurrence into a never-found
state adopts its value and location. -/
theorem concat_new_step {α : Type} [Concat α] (loc : Span) (o : ArgResult (List α)) (l : List α)
    (hov : o.value = some l) (hoe : o.errors = []) :
    ArgResult.concat (ArgResult.new loc) o = ⟨some l, [], o.location⟩ := by
  simp [ArgResult.concat, ArgResult.new, ArgResult.is_found, ArgResult.found_with_errors,
    ArgResult.found_with_value, ArgResult.add_error, hov, hoe,
    list_concat_eq_append, list_no_duplicates]

theorem list_merge_fold_aux {α : Type} [Concat α] (occs : List (ArgResult (List α)))
    (h : ∀ o ∈ occs, o.errors = [] ∧ o.value ≠ none)
    (acc : ArgResult (List α)) (L : List α)
    (hv : acc.value = some L) (he : acc.errors = []) :
    (occs.foldl ArgResult.concat acc).value
        = some (L ++ (occs.map (fun o => o.value.getD [])).flatten)
    ∧ (occs.foldl ArgResult.concat acc).errors = [] := by
  induction occs generalizing acc L with
  | nil => simp [hv, he]
  | cons o rest ih =>
    obtain ⟨hoe, hov⟩ := h o (List.mem_cons_self o rest)
    obtain ⟨l, hl⟩ := Option.ne_none_iff_exists'.mp hov
    rw [List.foldl_cons, concat_list_step acc o L l hv he hl hoe]
    have h' : ∀ x ∈ rest, x.errors = [] ∧ x.value ≠ none :=
      fun x hx => h x (List.mem_cons_of_mem o hx)
    have hrec := ih h' ⟨some (L ++ l), [], o.location⟩ (L ++ l) rfl rfl
    simpa [hl, List.append_assoc] using hrec

/-- C3: folding the merge left-to-right over `n ≥ 1` found occurrences of
a list-valued field, each carrying a value and no errors, yields the
concatenation of the occurrences' element lists in occurrence order, and
no error (Vec's `NO_DUPLICATES` is false). -/
theorem list_field_merge_concat {α : Type} [Concat α] (loc : Span)
    (occs : List (ArgResult (List α))) (hne : occs ≠ [])
    (h : ∀ o ∈ occs, o.errors = [] ∧ o.value ≠ none) :
    (occs.foldl ArgResult.concat (ArgResult.new loc)).value
        = some ((occs.map (fun o => o.value.getD [])).flatten)
    ∧ (occs.foldl ArgResult.concat (ArgResult.new loc)).errors = [] := by
  match occs, hne with
  | o :: rest, _ =>
    obtain ⟨hoe, hov⟩ := h o (List.mem_cons_self o rest)
    obtain ⟨l, hl⟩ := Option.ne_none_iff_exists'.mp hov
    rw [List.foldl_cons, concat_new_step loc o l hl hoe]
    have h' : ∀ x ∈ rest, x.errors = [] ∧ x.value ≠ none :=
      fun x hx => h x (List.mem_cons_of_mem o hx)
    have hrec := list_merge_fold_aux rest h' ⟨some l, [], o.location⟩ l rfl rfl
    simpa [hl] using hrec

/-- C3 witness: two occurrences `[1]` then `[2, 3]` merge to `[1, 2, 3]`. -/
theorem list_field_merge_concat_witness :
    (([⟨some [1], [], 5⟩, ⟨some [2, 3], [], 6⟩] : List (ArgResult (List Int))).foldl
        ArgResult.concat (ArgResult.new 0)).value = some [1, 2, 3]
    ∧ (([⟨some [1], [], 5⟩, ⟨some [2, 3], [], 6⟩] : List (ArgResult (List Int))).foldl
        ArgResult.concat (ArgResult.new 0)).errors = [] := by
  have h := list_field_merge_concat 0
    ([⟨some [1], [], 5⟩, ⟨some [2, 3], [], 6⟩] : List (ArgResult (List Int)))
    (by decide) (by decide)
  simpa using h

/-! ## Sequence decoder (`impl TryFromMeta for Vec<T>`, claims C4/C8) -/

/-- `Except::is_ok` as a Boolean. -/
def exceptOk {ε α : Type} : Except ε α → Bool
  | .ok _ => true
  | .error _ => false

/-- The `ok` payload of an `Except`, if any. -/
def exceptValue {ε α : Type} : Except ε α → Option α
  | .ok v => some v
  | .error _ => none

/-- Phase a of `impl TryFromMeta for Vec<T>` (`shared.rs` lines 265-285),
parametric in the adapter's array extraction, the node-span function and
the element phase a: a non-array node short-circuits with one
`InvalidType("array")` error; otherwise every element is decoded
independently and the per-element results become the value. -/
def vec_try_from_meta {N ι : Type} (d_array : N → Option (List N)) (nspan : N → Span)
    (tfm : N → ArgResult ι) (meta : N) : ArgResult (List (ArgResult ι)) :=
  let result : ArgResult (List (ArgResult ι)) := ArgResult.new (nspan meta)
  match d_array meta with
  | none => result.add_error (.InvalidType "array")
  | some array => result.add_value (array.map tfm)

/-- The element loop of `Vec<T>::validate`: validated values in order, and
all per-element errors in element order. -/
def vec_validate_loop {ι τ : Type} (tval : ArgResult ι → String → Except (List Error) τ)
    (arg_name : String) : List (ArgResult ι) → List τ × List Error
  | [] => ([], [])
  | e :: rest =>
    let r := vec_validate_loop tval arg_name rest
    match tval e arg_name with
    | .ok v => (v :: r.1, r.2)
    | .error es => (r.1, es ++ r.2)

/-- Phase b of `impl TryFromMeta for Vec<T>` (`shared.rs` lines 287-318),
parametric in the element validator. -/
def vec_validate {ι τ : Type} (tval : ArgResult ι → String → Except (List Error) τ)
    (state : ArgResult (List (ArgResult ι))) (arg_name : String) :
    Except (List Error) (List τ) :=
  if state.found_with_errors then .error state.errors
  else
    match state.value with
    | none => .error ((state.add_error (.MissingArg arg_name)).errors)
    | some values =>
      let r := vec_validate_loop tval arg_name values
      if (state.errors ++ r.2).length = 0 then .ok r.1 else .error (state.errors ++ r.2)

theorem vec_validate_loop_spec {ι τ : Type}
    (tval : ArgResult ι → String → Except (List Error) τ)
    (arg_name : String) (es : List (ArgResult ι))
    (h : ∀ e ∈ es, (∃ v, tval e arg_name = .ok v) ∨ (∃ err, tval e arg_name = .error [err])) :
    (vec_validate_loop tval arg_name es).1
        = es.filterMap (fun e => exceptValue (tval e arg_name))
    ∧ (vec_validate_loop tval arg_name es).2.length
        = (es.filter (fun e => !exceptOk (tval e arg_name))).length
    ∧ (vec_validate_loop tval arg_name es).1.length
        + (vec_validate_loop tval arg_name es).2.length = es.length := by
  induction es with
  | nil => simp [vec_validate_loop]
  | cons e rest ih =>
    obtain ⟨ih1, ih2, ih3⟩ := ih (fun x hx => h x (List.mem_cons_of_mem e hx))
    rcases h e (List.mem_cons_self e rest) with ⟨v, hv⟩ | ⟨err, herr⟩
    · refine ⟨?_, ?_, ?_⟩
      · simp [vec_validate_loop, hv, exceptValue, ih1]
      · simp [vec_validate_loop, hv, exceptOk, ih2]
      · simp only [vec_validate_loop, hv, List.length_cons]
        omega
    · refine ⟨?_, ?_, ?_⟩
      · simp [vec_validate_loop, herr, exceptValue, ih1]
      · simp [vec_validate_loop, herr, exceptOk, ih2]
      · simp only [vec_validate_loop, herr, List.length_append, List.length_cons,
          List.length_nil]
        omega

/-- C4: for a `Sequence<T>` field supplied once as an array of `k`
elements of which `m` fail the element validator (each failing element
contributing exactly one error): if `m > 0`, validation returns exactly
`m` errors and no assembled sequence; if `m = 0`, it returns exactly the
`k` validated elements in input order. -/
theorem sequence_validate_counts {ι τ : Type}
    (tval : ArgResult ι → String → Except (List Error) τ)
    (es : List (ArgResult ι)) (loc : Span) (arg_name : String)
    (h : ∀ e ∈ es, (∃ v, tval e arg_name = .ok v) ∨ (∃ err, tval e arg_name = .error [err])) :
    (0 < (es.filter (fun e => !exceptOk (tval e arg_name))).length →
      ∃ errs, vec_validate tval ⟨some es, [], loc⟩ arg_name = .error errs
        ∧ errs.length = (es.filter (fun e => !exceptOk (tval e arg_name))).length)
    ∧ ((es.filter (fun e => !exceptOk (tval e arg_name))).length = 0 →
      vec_validate tval ⟨some es, [], loc⟩ arg_name
          = .ok (es.filterMap (fun e => exceptValue (tval e arg_name)))
        ∧ (es.filterMap (fun e => exceptValue (tval e arg_name))).length = es.length) := by
  obtain ⟨h1, h2, h3⟩ := vec_validate_loop_spec tval arg_name es h
  constructor
  · intro hm
    have hne : ¬ (vec_validate_loop tval arg_name es).2.length = 0 := by omega
    refine ⟨(vec_validate_loop tval arg_name es).2, ?_, h2⟩
    simp [vec_validate, ArgResult.found_with_errors, hne]
  · intro hm
    have hz : (vec_validate_loop tval arg_name es).2.length = 0 := by omega
    constructor
    · simp [vec_validate, ArgResult.found_with_errors, hz, h1]
    · rw [← h1]; omega

/-- C4 witness: two valid elements validate to the two values in order. -/
theorem sequence_validate_counts_witness :
    vec_validate
      (fun st _ => match st.value with
        | some v => Except.ok v
        | none => Except.error [⟨.MissingArg "e", st.location⟩])
      ⟨some [⟨some true, [], 1⟩, ⟨some false, [], 2⟩], [], 0⟩ "tags"
      = .ok [true, false] := by
  have h := (sequence_validate_counts
      (fun st _ => match st.value with
        | some v => Except.ok v
        | none => Except.error [⟨.MissingArg "e", st.location⟩])
      [⟨some true, [], 1⟩, ⟨some false, [], 2⟩] 0 "tags"
      (by
        intro e he
        simp only [List.mem_cons, List.not_mem_nil, or_false] at he
        rcases he with rfl | rfl
        · exact Or.inl ⟨true, rfl⟩
        · exact Or.inl ⟨false, rfl⟩)).2 (by decide)
  simpa using h.1

/-! ## Optional decoder (`impl TryFromMeta for Option<T>`, claim C5) -/

/-- Phase b of `impl TryFromMeta for Option<T>` (`shared.rs` lines
330-336), parametric in the inner validator. -/
def option_validate {ι τ : Type} (tval : ArgResult ι → String → Except (List Error) τ)
    (state : ArgResult ι) (arg_name : String) : Except (List Error) (Option τ) :=
  match state.value with
  | some _ =>
    match tval state arg_name with
    | .ok v => .ok (some v)
    | .error es => .error es
  | none =>
    if state.found_with_errors then .error state.errors
    else .ok none

/-- C5: `Option<T>::validate` with a value present returns the inner
validation result wrapped in `some`; with no value and no errors it
succeeds with `none` (never an error); with no value and non-empty
errors it fails with exactly those errors. -/
theorem option_validate_cases {ι τ : Type}
    (tval : ArgResult ι → String → Except (List Error) τ)
    (state : ArgResult ι) (arg_name : String) :
    (state.value ≠ none →
      option_validate tval state arg_name = Except.map some (tval state arg_name))
    ∧ (state.value = none → state.errors = [] →
      option_validate tval state arg_name = .ok none)
    ∧ (state.value = none → state.errors ≠ [] →
      option_validate tval state arg_name = .error state.errors) := by
  refine ⟨?_, ?_, ?_⟩
  · intro hv
    obtain ⟨v, hv'⟩ := Option.ne_none_iff_exists'.mp hv
    unfold option_validate
    rw [hv']
    cases tval state arg_name <;> simp [Except.map]
  · intro hv he
    unfold option_validate
    rw [hv]
    simp [ArgResult.found_with_errors, he]
  · intro hv he
    unfold option_validate
    rw [hv]
    simp [ArgResult.found_with_errors, List.length_pos, he]

/-- C5 witness: all three cases at concrete states. -/
theorem option_validate_cases_witness :
    option_validate (fun st _ => Except.ok st.location) (⟨some 3, [], 7⟩ : ArgResult Int) "a"
        = .ok (some 7)
    ∧ option_validate (fun st _ => Except.ok st.location) (⟨none, [], 7⟩ : ArgResult Int) "a"
        = .ok none
    ∧ option_validate (fun st _ => Except.ok st.location)
        (⟨none, [⟨.DuplicateArg, 7⟩], 7⟩ : ArgResult Int) "a"
        = .error [⟨.DuplicateArg, 7⟩] := by
  refine ⟨?_, ?_, ?_⟩
  · have h := (option_validate_cases (fun st _ => Except.ok st.location)
      (⟨some 3, [], 7⟩ : ArgResult Int) "a").1 (by decide)
    simpa [Except.map] using h
  · exact (option_validate_cases (fun st _ => Except.ok st.location)
      (⟨none, [], 7⟩ : ArgResult Int) "a").2.1 rfl rfl
  · exact (option_validate_cases (fun st _ => Except.ok st.location)
      (⟨none, [⟨.DuplicateArg, 7⟩], 7⟩ : ArgResult Int) "a").2.2 rfl (by decide)

/-! ## Generated record code (`derive-attribute-macros/src/lib.rs`)

`generate_try_from_meta` and `generate_validate` are templates; the
models below are parametric in everything the template splices in: the
builder type `B`, the per-field match branches (`branches key` is `some`
update exactly for declared field keys), the builder constructor, the
argument-list extraction of the adapter, and (for phase b) the declared
container default and the per-field validation/assembly.  A node type `N`
and an attribute type `A` stand for `V::ArgMeta` and `V::Attribute`.
The `.expect("key failed")` on key extraction is a panic, modelled by an
`Option` result: `none` is an abort. -/

/-- The child loop of the generated `try_from_meta`: route each child by
its key; a key matching no declared field pushes `InvalidArg` onto the
OVERALL result and continues; a child whose key extraction fails panics
(`none`). -/
def gen_loop {N B : Type} (d_key : N → Option String) (nspan : N → Span)
    (branches : String → Option (B → N → B)) :
    List N → B → ArgResult B → Option (B × ArgResult B)
  | [], b, res => some (b, res)
  | arg :: rest, b, res =>
    match d_key arg with
    | none => none
    | some key =>
      match branches key with
      | some upd => gen_loop d_key nspan branches rest (upd b arg) res
      | none =>
        gen_loop d_key nspan branches rest b
          { res with errors := res.errors ++ [⟨.InvalidArg, nspan arg⟩] }

/-- The generated `try_from_meta` (`generate_try_from_meta`, lib.rs lines
446-476): a non-list node short-circuits with one `InvalidType("list")`
error; otherwise the child loop runs and the builder becomes the value. -/
def gen_try_from_meta {A N B : Type} (d_args : A → Option (List N))
    (d_key : N → Option String) (nspan : N → Span) (aspan : A → Span)
    (branches : String → Option (B → N → B)) (init_builder : Span → B)
    (arg_meta : A) : Option (ArgResult B) :=
  let result : ArgResult B := ArgResult.new (aspan arg_meta)
  let builder := init_builder (aspan arg_meta)
  match d_args arg_meta with
  | none => some (result.add_error (.InvalidType "list"))
  | some args =>
    match gen_loop d_key nspan branches args builder result with
    | none => none
    | some (b, res) => some (res.add_value b)

/-- The body shared by both branches of the generated `validate`
(`generate_validate`, lib.rs lines 478-513): `assemble` stands for the
spliced per-field validations plus record assembly — it returns the
record exactly when the combined per-field error list stays empty. -/
def gen_validate_body {B R : Type} (missing_msg : String → ErrorMsg)
    (assemble : B → Except (List Error) R)
    (state : ArgResult B) (arg_name : String) : Except (List Error) R :=
  if state.found_with_errors then .error state.errors
  else
    match state.value with
    | none => .error ((state.add_error (missing_msg arg_name)).errors)
    | some b => assemble b

/-- The generated `validate`: when a container-level default is declared
(`set_default` is `some`), a never-found state (no value, no errors)
returns the default immediately. -/
def gen_validate {B R : Type} (set_default : Option R) (missing_msg : String → ErrorMsg)
    (assemble : B → Except (List Error) R)
    (state : ArgResult B) (arg_name : String) : Except (List Error) R :=
  if state.value.isNone && !state.found_with_errors then
    match set_default with
    | some d => .ok d
    | none => gen_validate_body missing_msg assemble state arg_name
  else gen_validate_body missing_msg assemble state arg_name

/-- `Attribute::from_attrs` (`shared.rs` lines 358-374): fold the
occurrences whose attribute key matches the record's registered name into
one state via the merge protocol, then validate, converting errors to the
host's type. -/
def from_attrs {A B R E : Type} [Concat B] (name : String)
    (d_attr_key : A → Option String) (tfm : A → ArgResult B)
    (validate : ArgResult B → String → Except (List Error) R)
    (convert_error : Error → E) (location : Span) (attrs : List A) :
    Except (List E) R :=
  let result := attrs.foldl
    (fun r attr => if d_attr_key attr = some name then r.concat (tfm attr) else r)
    (ArgResult.new location)
  match validate result name with
  | .ok v => .ok v
  | .error es => .error (es.map convert_error)

/-! ## Syn 1 metadata model (`syn_1.rs`), for claim C10 -/

/-- `syn` 1.x `NestedMeta`: a meta (path, name/value with a literal, or
list) or a bare literal. -/
inductive NestedMeta where
  | path (span : Span) (key : Option String)
  | nameValue (span : Span) (key : Option String) (l : Lit)
  | list (span : Span) (key : Option String) (args : List NestedMeta)
  | lit (span : Span) (l : Lit)

/-- `impl GetSpan for NestedMeta`. -/
def NestedMeta.get_span : NestedMeta → Span
  | .path s _ => s
  | .nameValue s _ _ => s
  | .list s _ _ => s
  | .lit s _ => s

/-- `Syn1::deserialize_key`: only a name/value pair has a key; positional
or flag-style children yield `None`. -/
def Syn1.deserialize_key : NestedMeta → Option String
  | .nameValue _ k _ => k
  | _ => none

/-- `Syn1::deserialize_list_args`. -/
def Syn1.deserialize_list_args : NestedMeta → Option (List NestedMeta)
  | .list _ _ args => some args
  | _ => none

/-! ## Claim C8: mandatory-list shape failures short-circuit -/

/-- C8: when a list-shaped node was mandatory and the node is not
list-shaped, phase a short-circuits with exactly one `InvalidType` error
(`"array"` for `Sequence<T>`, `"list"` for a record's argument list), no
value, and no per-element decoding (the result is independent of the
element decoder and of the field branches). -/
theorem list_shape_shortcircuit {N ι A M B : Type}
    (d_array : N → Option (List N)) (nspan : N → Span) (tfm : N → ArgResult ι)
    (meta : N) (hna : d_array meta = none)
    (d_args : A → Option (List M)) (d_key : M → Option String) (mspan : M → Span)
    (aspan : A → Span) (branches : String → Option (B → M → B))
    (init_builder : Span → B) (am : A) (hnl : d_args am = none) :
    vec_try_from_meta d_array nspan tfm meta
        = ⟨none, [⟨.InvalidType "array", nspan meta⟩], nspan meta⟩
    ∧ gen_try_from_meta d_args d_key mspan aspan branches init_builder am
        = some ⟨none, [⟨.InvalidType "list", aspan am⟩], aspan am⟩ := by
  constructor
  · simp [vec_try_from_meta, hna, ArgResult.new, ArgResult.add_error]
  · simp [gen_try_from_meta, hnl, ArgResult.new, ArgResult.add_error]

/-- C8 witness: a bare path is neither an array nor a list. -/
theorem list_shape_shortcircuit_witness :
    vec_try_from_meta Syn2.deserialize_array Meta.get_span
        (fun m => (ArgResult.new m.get_span : ArgResult Bool)) (Meta.path 3 (some "x"))
        = ⟨none, [⟨.InvalidType "array", 3⟩], 3⟩
    ∧ gen_try_from_meta Syn2.deserialize_list_args Syn2.deserialize_key Meta.get_span
        Meta.get_span (fun _ => none) (fun s => (ArgResult.new s : ArgResult Bool))
        (Meta.path 4 (some "y"))
        = some ⟨none, [⟨.InvalidType "list", 4⟩], 4⟩ :=
  list_shape_shortcircuit Syn2.deserialize_array Meta.get_span
    (fun m => (ArgResult.new m.get_span : ArgResult Bool)) (Meta.path 3 (some "x")) rfl
    Syn2.deserialize_list_args Syn2.deserialize_key Meta.get_span Meta.get_span
    (fun _ => none) (fun s => (ArgResult.new s : ArgResult Bool))
    (Meta.path 4 (some "y")) rfl

/-! ## Claim C7: unknown keys error on the overall result and continue -/

theorem gen_loop_matched {N B : Type} (d_key : N → Option String) (nspan : N → Span)
    (branches : String → Option (B → N → B)) (l : List N)
    (h : ∀ x ∈ l, ∃ k f, d_key x = some k ∧ branches k = some f)
    (b : B) (res : ArgResult B) :
    ∃ b', gen_loop d_key nspan branches l b res = some (b', res) := by
  induction l generalizing b with
  | nil => exact ⟨b, rfl⟩
  | cons x rest ih =>
    obtain ⟨k, f, hk, hf⟩ := h x (List.mem_cons_self x rest)
    obtain ⟨b', hb'⟩ := ih (fun y hy => h y (List.mem_cons_of_mem x hy)) (f b x)
    exact ⟨b', by simp [gen_loop, hk, hf, hb']⟩

theorem gen_loop_append {N B : Type} (d_key : N → Option String) (nspan : N → Span)
    (branches : String → Option (B → N → B)) (l₁ l₂ : List N) (b : B)
    (res : ArgResult B) :
    gen_loop d_key nspan branches (l₁ ++ l₂) b res =
      match gen_loop d_key nspan branches l₁ b res with
      | none => none
      | some (b₁, res₁) => gen_loop d_key nspan branches l₂ b₁ res₁ := by
  induction l₁ generalizing b res with
  | nil => simp [gen_loop]
  | cons x rest ih =>
    cases hx : d_key x with
    | none => simp [gen_loop, hx]
    | some k =>
      cases hbk : branches k with
      | some upd => simp [gen_loop, hx, hbk, ih]
      | none => simp [gen_loop, hx, hbk, ih]

/-- C7: in the generated record phase a, a child whose key matches no
declared field adds one `InvalidArg` (the unrecognized-argument error) to
the OVERALL result, positioned at that child, and processing continues:
with exactly one unknown child among otherwise matched children, the
result carries exactly that one error and still a builder value, and the
generated phase b then fails with exactly that one error, for every
declared default and every per-field validation (independent of other
fields' validity). -/
theorem unknown_key_one_error {A N B R : Type} (d_args : A → Option (List N))
    (d_key : N → Option String) (nspan : N → Span) (aspan : A → Span)
    (branches : String → Option (B → N → B)) (init_builder : Span → B) (m : A)
    (pre post : List N) (c : N)
    (hargs : d_args m = some (pre ++ c :: post))
    (hpre : ∀ x ∈ pre, ∃ k f, d_key x = some k ∧ branches k = some f)
    (hpost : ∀ x ∈ post, ∃ k f, d_key x = some k ∧ branches k = some f)
    (hc : ∃ k, d_key c = some k ∧ branches k = none) :
    ∃ b : B,
      gen_try_from_meta d_args d_key nspan aspan branches init_builder m
          = some ⟨some b, [⟨.InvalidArg, nspan c⟩], aspan m⟩
      ∧ ∀ (set_default : Option R) (missing_msg : String → ErrorMsg)
          (assemble : B → Except (List Error) R) (arg_name : String),
          gen_validate set_default missing_msg assemble
              ⟨some b, [⟨.InvalidArg, nspan c⟩], aspan m⟩ arg_name
            = .error [⟨.InvalidArg, nspan c⟩] := by
  obtain ⟨k₀, hk₀, hbr₀⟩ := hc
  obtain ⟨b₁, hb₁⟩ := gen_loop_matched d_key nspan branches pre hpre
    (init_builder (aspan m)) (ArgResult.new (aspan m))
  obtain ⟨b₂, hb₂⟩ := gen_loop_matched d_key nspan branches post hpost b₁
    ({ ArgResult.new (aspan m) with
        errors := (ArgResult.new (aspan m) : ArgResult B).errors
          ++ [⟨.InvalidArg, nspan c⟩] })
  refine ⟨b₂, ?_, ?_⟩
  · simp only [gen_try_from_meta, hargs, gen_loop_append, hb₁, gen_loop, hk₀, hbr₀, hb₂]
    simp [ArgResult.new, ArgResult.add_value]
  · intro set_default missing_msg assemble arg_name
    cases set_default <;>
      simp [gen_validate, gen_validate_body, ArgResult.found_with_errors]

/-- C7 witness: record with one declared field `age`, input children
`age = 5` then unknown `foo = 1`. -/
theorem unknown_key_one_error_witness :
    ∃ b : Nat,
      gen_try_from_meta Syn2.deserialize_list_args Syn2.deserialize_key Meta.get_span
          Meta.get_span
          (fun k => match k with
            | "age" => some (fun (b : Nat) (_ : Meta) => b + 1)
            | _ => none)
          (fun _ => 0)
          (Meta.list 0 (some "attr")
            (some [Meta.nameValue 1 (some "age") (Expr.lit 1 (Lit.int 5)),
                   Meta.nameValue 2 (some "foo") (Expr.lit 2 (Lit.int 1))]))
          = some ⟨some b, [⟨.InvalidArg, 2⟩], 0⟩
      ∧ ∀ (set_default : Option Nat) (missing_msg : String → ErrorMsg)
          (assemble : Nat → Except (List Error) Nat) (arg_name : String),
          gen_validate set_default missing_msg assemble
              ⟨some b, [⟨.InvalidArg, 2⟩], 0⟩ arg_name
            = .error [⟨.InvalidArg, 2⟩] :=
  unknown_key_one_error Syn2.deserialize_list_args Syn2.deserialize_key Meta.get_span
    Meta.get_span
    (fun k => match k with
      | "age" => some (fun (b : Nat) (_ : Meta) => b + 1)
      | _ => none)
    (fun _ => 0)
    (Meta.list 0 (some "attr")
      (some [Meta.nameValue 1 (some "age") (Expr.lit 1 (Lit.int 5)),
             Meta.nameValue 2 (some "foo") (Expr.lit 2 (Lit.int 1))]))
    [Meta.nameValue 1 (some "age") (Expr.lit 1 (Lit.int 5))] []
    (Meta.nameValue 2 (some "foo") (Expr.lit 2 (Lit.int 1)))
    rfl
    (by
      intro x hx
      simp only [List.mem_cons, List.not_mem_nil, or_false] at hx
      subst hx
      exact ⟨"age", _, rfl, rfl⟩)
    (by intro x hx; cases hx)
    ⟨"foo", rfl, rfl⟩

/-! ## Claim C6: container-level default on an absent attribute -/

theorem fold_skip_all {A B : Type} [Concat B] (name : String)
    (d_attr_key : A → Option String) (tfm : A → ArgResult B) (attrs : List A)
    (h : ∀ a ∈ attrs, d_attr_key a ≠ some name) (init : ArgResult B) :
    attrs.foldl
      (fun r attr => if d_attr_key attr = some name then r.concat (tfm attr) else r)
      init = init := by
  induction attrs generalizing init with
  | nil => rfl
  | cons a rest ih =>
    rw [List.foldl_cons, if_neg (h a (List.mem_cons_self a rest))]
    exact ih (fun x hx => h x (List.mem_cons_of_mem a hx)) init

/-- C6: a record declaring a container-level default and receiving zero
occurrences of its attribute (so the top-level state is never found)
decodes successfully to the default with zero errors, rather than failing
with a missing-attribute error — for every per-field assembly. -/
theorem container_default_absent {A B R E : Type} [Concat B] (name : String)
    (d_attr_key : A → Option String) (tfm : A → ArgResult B)
    (missing_msg : String → ErrorMsg) (assemble : B → Except (List Error) R)
    (convert_error : Error → E) (d : R) (location : Span) (attrs : List A)
    (h : ∀ a ∈ attrs, d_attr_key a ≠ some name) :
    from_attrs name d_attr_key tfm
      (gen_validate (some d) missing_msg assemble) convert_error location attrs
      = .ok d := by
  unfold from_attrs
  rw [fold_skip_all name d_attr_key tfm attrs h]
  simp [gen_validate, ArgResult.new, ArgResult.found_with_errors]

/-- C6 witness: one attribute occurrence with a different name counts as
zero occurrences of this record's attribute. -/
theorem container_default_absent_witness :
    from_attrs "attr" Syn1.deserialize_key
      (fun (_ : NestedMeta) => (ArgResult.new 9 : ArgResult Bool))
      (gen_validate (some 42) ErrorMsg.MissingAttribute
        (fun (_ : Bool) => Except.error ([] : List Error)))
      (fun e => e) 7 [NestedMeta.nameValue 1 (some "other") (Lit.int 5)]
      = .ok 42 :=
  container_default_absent "attr" Syn1.deserialize_key
    (fun _ => ArgResult.new 9) ErrorMsg.MissingAttribute
    (fun _ => Except.error []) (fun e => e) 42 7
    [NestedMeta.nameValue 1 (some "other") (Lit.int 5)]
    (by
      intro a ha
      simp only [List.mem_cons, List.not_mem_nil, or_false] at ha
      subst ha
      decide)

/-! ## Claim C10: key extraction panics on keyless children -/

theorem gen_loop_panics {N B : Type} (d_key : N → Option String) (nspan : N → Span)
    (branches : String → Option (B → N → B)) (l : List N) (c : N)
    (hc : c ∈ l) (hk : d_key c = none) (b : B) (res : ArgResult B) :
    gen_loop d_key nspan branches l b res = none := by
  induction l generalizing b res with
  | nil => cases hc
  | cons x rest ih =>
    rcases List.mem_cons.mp hc with rfl | hc'
    · simp [gen_loop, hk]
    · cases hx : d_key x with
      | none => simp [gen_loop, hx]
      | some k =>
        cases hbk : branches k with
        | some upd => simp [gen_loop, hx, hbk, ih hc']
        | none => simp [gen_loop, hx, hbk, ih hc']

/-- C10: the generated record phase a extracts every child's key with a
panicking `expect`; under the syn-1 adapter a child that is not a
key/value pair has no key, so decoding an argument list containing such a
child panics (`none`) instead of producing any result — in particular it
records no collectable error. -/
theorem keyless_child_panics {A B : Type} (d_args : A → Option (List NestedMeta))
    (nspan : NestedMeta → Span) (aspan : A → Span)
    (branches : String → Option (B → NestedMeta → B)) (init_builder : Span → B)
    (m : A) (args : List NestedMeta) (c : NestedMeta)
    (hargs : d_args m = some args) (hmem : c ∈ args)
    (hkey : Syn1.deserialize_key c = none) :
    gen_try_from_meta d_args Syn1.deserialize_key nspan aspan branches init_builder m
      = none := by
  simp [gen_try_from_meta, hargs,
    gen_loop_panics Syn1.deserialize_key nspan branches args c hmem hkey]

/-- C10 witness: a flag-style child (`Meta::Path`) under syn 1 panics the
generated decoder. -/
theorem keyless_child_panics_witness :
    gen_try_from_meta Syn1.deserialize_list_args Syn1.deserialize_key
      NestedMeta.get_span NestedMeta.get_span (fun _ => none)
      (fun s => (ArgResult.new s : ArgResult Bool))
      (NestedMeta.list 0 (some "attr") [NestedMeta.path 1 (some "flag")])
      = none :=
  keyless_child_panics Syn1.deserialize_list_args NestedMeta.get_span
    NestedMeta.get_span (fun _ => none) (fun s => (ArgResult.new s : ArgResult Bool))
    (NestedMeta.list 0 (some "attr") [NestedMeta.path 1 (some "flag")])
    [NestedMeta.path 1 (some "flag")] (NestedMeta.path 1 (some "flag"))
    rfl (List.mem_cons_self _ _) rfl

end DeriveAttribute
